import Mathlib

/-!
Verification of the CARB-Scraper core against its specification.

Strings are modelled as `List Char`.  Each definition is a shallow
embedding of the corresponding Python function, translated line by line
from the source under `src/`:

* `src/crawler/crawler.py`   — `_guid_from_url`, `crawl`
* `src/crawler/extractor.py` — `_extract_guid`
* `src/db/database.py`       — `upsert_page`, `insert_edge`,
  `get_children`, `get_path_to_root`, `fts_search`
* `src/db/schema.py`         — table shapes (unique `url`, edge PK)
* `src/chatbot/llm.py`       — `_expand_acronyms`, `_best_excerpt`
-/

namespace Carb

/-! ## Small string helpers shared by several embeddings -/

/-- Python `\w` on ASCII text: alphanumeric or underscore. -/
def isWordChar (c : Char) : Bool :=
  c.isAlphanum || c = '_'

/-- Python whitespace class `\s` (ASCII). -/
def isSpaceChar (c : Char) : Bool :=
  c = ' ' || c = '\t' || c = '\n' || c = '\r' || c = '\x0b' || c = '\x0c'

/-- Case-insensitive character comparison (ASCII lowering). -/
def ciEqChar (a b : Char) : Bool :=
  a.toLower = b.toLower

/-- Case-insensitive check that `pat` starts the string `s`. -/
def ciPref : List Char → List Char → Bool
  | [], _ => true
  | _ :: _, [] => false
  | a :: as, b :: bs => ciEqChar a b && ciPref as bs

/-- Split a string at the first occurrence of `sep`; when `sep` is
absent the second component is empty and the whole string is first.
Mirrors Python `s.split(sep, 1)` used by URL parsing. -/
def splitOnce (sep : Char) : List Char → (List Char × List Char)
  | [] => ([], [])
  | c :: s =>
    if c = sep then ([], s)
    else
      let r := splitOnce sep s
      (c :: r.1, r.2)

/-- Split on every occurrence of `sep`, keeping empty fields, like
Python `s.split('/')`. -/
def splitAll (sep : Char) : List Char → List (List Char)
  | [] => [[]]
  | c :: s =>
    let r := splitAll sep s
    if c = sep then [] :: r
    else
      match r with
      | [] => [[c]]
      | h :: t => (c :: h) :: t

/-- Python `s.rstrip('/')`. -/
def rstripSlash (s : List Char) : List Char :=
  ((s.reverse.dropWhile (fun c => c = '/')).reverse)

/-- Python `s.lower()` (ASCII). -/
def lowerStr (s : List Char) : List Char :=
  s.map Char.toLower

/-! ## URL parsing (`urllib.parse.urlparse` / `parse_qs`)

Both GUID extractors call `urlparse` and then use only `parsed.query`
and `parsed.path`, and `parse_qs` on the query.  The model below embeds
exactly that slice of the library: the fragment is cut at the first
`#`, the query at the first `?`, a leading `scheme://netloc` is removed
when present, and the query string is split into `k=v` pairs on `&`
(pairs with an empty value are dropped, as `parse_qs` does by
default). -/

/-- Drop a leading `scheme://netloc` prefix, returning the path part. -/
def dropSchemeNetloc (s : List Char) : List Char :=
  let rec go : List Char → Option (List Char)
    | ':' :: '/' :: '/' :: rest =>
      -- netloc runs to the next '/'; no '/' means empty path
      some ((rest.dropWhile (fun c => c ≠ '/')))
    | _ :: t => go t
    | [] => none
  match go s with
  | some p => p
  | none => s

/-- The `(path, query)` projection of `urlparse`. -/
def urlparsePathQuery (url : List Char) : (List Char × List Char) :=
  let noFrag := (splitOnce '#' url).1
  let pq := splitOnce '?' noFrag
  let hasQ := noFrag.contains '?'
  (dropSchemeNetloc pq.1, if hasQ then pq.2 else [])

/-- First value of query parameter `key`, as `parse_qs(q).get(key)[0]`;
`parse_qs` drops pairs whose value is empty. -/
def parseQsFirst (key : List Char) (query : List Char) : Option (List Char) :=
  let pairs := splitAll '&' query
  let rec find : List (List Char) → Option (List Char)
    | [] => none
    | p :: ps =>
      let kv := splitOnce '=' p
      if p.contains '=' ∧ kv.1 = key ∧ kv.2 ≠ [] then some kv.2
      else find ps
  find pairs

/-! ## The two GUID extractors (claim C10)

`_guid_from_url` is `src/crawler/crawler.py` lines 35–45 and
`_extract_guid` is `src/crawler/extractor.py` lines 56–66; each is
translated from its own source file. -/

/-- `crawler._guid_from_url`: `?guid=XXXX` query parameter if present,
else the path segment following a `/Document/` segment, else `None`. -/
def guid_from_url (url : List Char) : Option (List Char) :=
  let parsed := urlparsePathQuery url
  match parseQsFirst ['g', 'u', 'i', 'd'] parsed.2 with
  | some v => some v
  | none =>
    let parts := splitAll '/' (rstripSlash parsed.1)
    if h : parts.length ≥ 2 then
      if lowerStr (parts.get ⟨parts.length - 2, by omega⟩) =
          ['d', 'o', 'c', 'u', 'm', 'e', 'n', 't'] then
        some (parts.get ⟨parts.length - 1, by omega⟩)
      else none
    else none

/-- `extractor._extract_guid`: `?guid=XXXX` query parameter if present,
else the path segment following a `/Document/` segment, else `None`. -/
def extract_guid (url : List Char) : Option (List Char) :=
  let parsed := urlparsePathQuery url
  match parseQsFirst ['g', 'u', 'i', 'd'] parsed.2 with
  | some v => some v
  | none =>
    let parts := splitAll '/' (rstripSlash parsed.1)
    if h : parts.length ≥ 2 then
      if lowerStr (parts.get ⟨parts.length - 2, by omega⟩) =
          ['d', 'o', 'c', 'u', 'm', 'e', 'n', 't'] then
        some (parts.get ⟨parts.length - 1, by omega⟩)
      else none
    else none

/-! ## Graph Store (`src/db/database.py`, `src/db/schema.py`)

The `pages` table: `id` AUTOINCREMENT primary key, `url` UNIQUE,
`guid`, `title` nullable, `content`, `depth`, nullable `parent_id`,
`status`.  The `edges` table: PRIMARY KEY `(from_id, to_id)` with a
`link_text` payload.  A database is the two tables plus the next
AUTOINCREMENT id. -/

structure PageRow where
  id : Nat
  url : List Char
  guid : Option (List Char)
  title : Option (List Char)
  content : List Char
  depth : Nat
  parent_id : Option Nat
  status : List Char
deriving DecidableEq

structure EdgeRow where
  from_id : Nat
  to_id : Nat
  link_text : List Char
deriving DecidableEq

structure Db where
  pages : List PageRow
  edges : List EdgeRow
  nextId : Nat
deriving DecidableEq

def emptyDb : Db := ⟨[], [], 1⟩

/-- `SELECT ... FROM pages WHERE url = ?` (url is UNIQUE). -/
def lookupUrl (db : Db) (url : List Char) : Option PageRow :=
  db.pages.find? (fun r => r.url == url)

/-- `SELECT ... FROM pages WHERE id = ?` (id is the primary key). -/
def lookupId (db : Db) (id : Nat) : Option PageRow :=
  db.pages.find? (fun r => r.id == id)

/-- `Database.upsert_page` (database.py lines 44–73):
`INSERT ... ON CONFLICT(url) DO UPDATE SET guid = excluded.guid,
title = excluded.title, content = excluded.content,
depth = excluded.depth,
parent_id = COALESCE(pages.parent_id, excluded.parent_id),
status = excluded.status ... RETURNING id`.
Every field of the conflicting row is overwritten except `parent_id`,
which keeps its stored value when non-null. -/
def upsert_page (db : Db) (url : List Char) (guid : Option (List Char))
    (title : Option (List Char)) (content : List Char) (depth : Nat)
    (parent_id : Option Nat) (status : List Char) : Db × Nat :=
  match lookupUrl db url with
  | some r =>
    let upd : PageRow → PageRow := fun p =>
      if p.url == url then
        { p with guid := guid, title := title, content := content,
                 depth := depth, parent_id := p.parent_id <|> parent_id,
                 status := status }
      else p
    ({ db with pages := db.pages.map upd }, r.id)
  | none =>
    ({ db with
        pages := db.pages ++
          [⟨db.nextId, url, guid, title, content, depth, parent_id, status⟩],
        nextId := db.nextId + 1 }, db.nextId)

/-- `Database.insert_edge` (database.py lines 75–83):
`INSERT OR IGNORE INTO edges ...` against the `(from_id, to_id)`
primary key — a duplicate ordered pair leaves the table unchanged. -/
def insert_edge (db : Db) (f t : Nat) (link_text : List Char) : Db :=
  if db.edges.any (fun e => e.from_id == f && e.to_id == t) then db
  else { db with edges := db.edges ++ [⟨f, t, link_text⟩] }

/-- A generic `upsert_page` call, for stating properties of call
sequences. -/
structure UpsertCall where
  url : List Char
  guid : Option (List Char)
  title : Option (List Char)
  content : List Char
  depth : Nat
  parent_id : Option Nat
  status : List Char

def applyUpserts (db : Db) (calls : List UpsertCall) : Db :=
  calls.foldl
    (fun d c =>
      (upsert_page d c.url c.guid c.title c.content c.depth c.parent_id
        c.status).1) db

/-! ### Ordering used by `ORDER BY title` (SQLite: NULLs sort first) -/

def strLe : List Char → List Char → Bool
  | [], _ => true
  | _ :: _, [] => false
  | a :: as, b :: bs =>
    if a < b then true else if b < a then false else strLe as bs

def titleLe : Option (List Char) → Option (List Char) → Bool
  | none, _ => true
  | some _, none => false
  | some s, some t => strLe s t

def insertBy (le : α → α → Bool) (x : α) : List α → List α
  | [] => [x]
  | y :: ys => if le x y then x :: y :: ys else y :: insertBy le x ys

def sortBy (le : α → α → Bool) (l : List α) : List α :=
  l.foldr (insertBy le) []

/-- `Database.get_children` (database.py lines 169–175):
`SELECT * FROM pages WHERE parent_id = ? ORDER BY title`. -/
def get_children (db : Db) (page_id : Nat) : List PageRow :=
  sortBy (fun a b => titleLe a.title b.title)
    (db.pages.filter (fun r => r.parent_id == some page_id))

/-! ### `get_path_to_root` (database.py lines 190–207)

The recursive CTE seeds `path` with the row `WHERE id = ?` and
repeatedly joins `pages p ON path.parent_id = p.id`; each row has at
most one parent, so the evaluation is a walk up the `parent_id` chain
that stops when `parent_id` is NULL or dangling.  The query itself has
no recursion bound, so the walk is modelled with explicit fuel: `none`
means the evaluation has not finished within `fuel` steps.  The final
`ORDER BY depth ASC` is the sort below. -/

def chainWalk (db : Db) : Nat → Nat → Option (List PageRow)
  | 0, _ => none
  | fuel + 1, id =>
    match lookupId db id with
    | none => some []
    | some r =>
      match r.parent_id with
      | none => some [r]
      | some p => (chainWalk db fuel p).map (fun l => r :: l)

def depthLe (a b : PageRow) : Bool := a.depth ≤ b.depth

def get_path_to_root (db : Db) (fuel : Nat) (page_id : Nat) :
    Option (List PageRow) :=
  (chainWalk db fuel page_id).map (sortBy depthLe)

/-- Ancestor resolution terminates: some finite number of CTE steps
completes the walk. -/
def cteTerminates (db : Db) (page_id : Nat) : Prop :=
  ∃ fuel, (chainWalk db fuel page_id).isSome

/-- Every stored parent has strictly smaller depth than its child — the
well-formed shape produced by a BFS crawl. -/
def parentDepthOk (db : Db) (r : PageRow) : Bool :=
  match r.parent_id with
  | none => true
  | some p =>
    match lookupId db p with
    | none => true
    | some pr => pr.depth < r.depth

def depthDecreasing (db : Db) : Bool :=
  db.pages.all (parentDepthOk db)

def sortedBy (le : α → α → Bool) : List α → Bool
  | [] => true
  | [_] => true
  | a :: b :: t => le a b && sortedBy le (b :: t)

/-! ## Crawl Scheduler (`src/crawler/crawler.py` lines 48–135)

The fetch/extract collaborator is a fixture: a finite map from URL to
the extracted record (title, content, outbound links with anchor
text).  A URL absent from the fixture models a fetch failure.  The
loop body mirrors `crawl`: pop the frontier, dedup by GUID-or-URL and
by literal URL, mark visited, upsert the node, record the edge from the
discovering parent when there is one and its anchor text is non-empty,
then enqueue undiscovered child links at `depth + 1` while
`depth < MAX_DEPTH`.  The wall-clock budget is not modelled (no real
time in the embedding); the page budget and depth budget are. -/

structure FixPage where
  title : List Char
  content : List Char
  links : List (List Char × List Char)

def fetchFix (web : List (List Char × FixPage)) (url : List Char) :
    Option FixPage :=
  (web.find? (fun p => p.1 == url)).map (fun p => p.2)

structure CrawlState where
  queue : List (List Char × Nat × Option Nat × List Char)
  visitedGuids : List (List Char)
  visitedUrls : List (List Char)
  total : Nat
  db : Db

def crawlLoop (web : List (List Char × FixPage)) (maxPages maxDepth : Nat) :
    Nat → CrawlState → CrawlState
  | 0, st => st
  | fuel + 1, st =>
    match st.queue with
    | [] => st
    | (url, depth, parent, ltext) :: rest =>
      if st.total < maxPages then
        let guid := guid_from_url url
        let dedup := guid.getD url
        if st.visitedGuids.contains dedup then
          crawlLoop web maxPages maxDepth fuel { st with queue := rest }
        else if st.visitedUrls.contains url then
          crawlLoop web maxPages maxDepth fuel { st with queue := rest }
        else
          let vg := dedup :: st.visitedGuids
          let vu := url :: st.visitedUrls
          match fetchFix web url with
          | none =>
            let db1 := (upsert_page st.db url guid none [] depth parent
              ("error").toList).1
            crawlLoop web maxPages maxDepth fuel
              ⟨rest, vg, vu, st.total, db1⟩
          | some page =>
            let status :=
              if page.content.isEmpty then ("empty").toList
              else ("ok").toList
            let up := upsert_page st.db url guid (some page.title)
              page.content depth parent status
            let db1 := up.1
            let pid := up.2
            let db2 :=
              match parent with
              | some p =>
                if ltext.isEmpty then db1 else insert_edge db1 p pid ltext
              | none => db1
            let newItems :=
              if depth < maxDepth then
                (page.links.filter (fun l =>
                  let cd := (guid_from_url l.1).getD l.1
                  !(vg.contains cd) && !(vu.contains l.1))).map
                  (fun l => (l.1, depth + 1, some pid, l.2))
              else []
            crawlLoop web maxPages maxDepth fuel
              ⟨rest ++ newItems, vg, vu, st.total + 1, db2⟩
      else st

/-! ### The 4-node fixture of §8: root → A, A → B, A → C, C → B -/

def fixWeb : List (List Char × FixPage) :=
  [(("root").toList,
    ⟨("Root").toList, ("root page content").toList,
      [(("a").toList, ("A").toList)]⟩),
   (("a").toList,
    ⟨("A").toList, ("a page content").toList,
      [(("b").toList, ("B").toList), (("c").toList, ("C").toList)]⟩),
   (("b").toList, ⟨("B").toList, ("b page content").toList, []⟩),
   (("c").toList,
    ⟨("C").toList, ("c page content").toList,
      [(("b").toList, ("B").toList)]⟩)]

def fixtureCrawl : CrawlState :=
  crawlLoop fixWeb 10 6 20 ⟨[(("root").toList, 0, none, [])], [], [], 0, emptyDb⟩

/-! ## Concrete stores used to instantiate the theorems below -/

def c1Db : Db :=
  ⟨[⟨1, ('r' :: []), none, none, [], 0, none, ('o' :: 'k' :: [])⟩,
    ⟨2, ('s' :: []), none, none, [], 1, some 1, ('o' :: 'k' :: [])⟩,
    ⟨3, ('u' :: []), none, none, [], 1, some 1, ('o' :: 'k' :: [])⟩], [], 4⟩

/-- A corrupted store whose `parent_id` chain is the 2-cycle 1 → 2 → 1. -/
def cycDb : Db :=
  ⟨[⟨1, ('p' :: '1' :: []), none, none, [], 1, some 2, ('o' :: 'k' :: [])⟩,
    ⟨2, ('p' :: '2' :: []), none, none, [], 0, some 1, ('o' :: 'k' :: [])⟩],
   [], 3⟩

/-- A well-formed two-node store: root 1 at depth 0, child 2 at depth 1. -/
def wfDb : Db :=
  ⟨[⟨1, ('r' :: []), none, none, [], 0, none, ('o' :: 'k' :: [])⟩,
    ⟨2, ('a' :: []), none, none, [], 1, some 1, ('o' :: 'k' :: [])⟩], [], 3⟩

/-! ## Excerpt selection: `_best_excerpt` (llm.py lines 90–113)

`_best_excerpt(full, fts_snippet, window=8000)` returns `full` when it
fits the window; otherwise it strips highlight markers from the
snippet, picks the longest gap between ellipses longer than 10
characters (truncated to 80) as the anchor, finds its first occurrence
in `full`, and slices a `window`-sized piece biased 3/4 backward from
the anchor (or a boilerplate-skipping slice when no anchor is
found). -/

/-- `re.sub(r"</?b>", "", s)`: drop every highlight marker. -/
def removeTags : List Char → List Char
  | [] => []
  | '<' :: '/' :: 'b' :: '>' :: rest => removeTags rest
  | '<' :: 'b' :: '>' :: rest => removeTags rest
  | c :: rest => c :: removeTags rest

/-- Python `s.split("...")`. -/
def splitOnDots : List Char → List (List Char)
  | [] => [[]]
  | '.' :: '.' :: '.' :: rest => [] :: splitOnDots rest
  | c :: rest =>
    match splitOnDots rest with
    | [] => [[c]]
    | h :: t => (c :: h) :: t

/-- Python `s.strip()`. -/
def stripStr (s : List Char) : List Char :=
  ((s.dropWhile isSpaceChar).reverse.dropWhile isSpaceChar).reverse

/-- Python `max(xs, key=len)`: the first element of maximal length. -/
def maxByLen (h : List Char) (t : List (List Char)) : List Char :=
  t.foldl (fun best s => if s.length > best.length then s else best) h

/-- The anchor derived from the FTS snippet: strip markers, split on
`"..."`, strip each piece, keep pieces longer than 10 characters, take
the longest and truncate it to 80 characters; empty when no piece
qualifies. -/
def anchorOf (fts_snippet : List Char) : List Char :=
  let anchor_text := removeTags fts_snippet
  let segments := ((splitOnDots anchor_text).map stripStr).filter
    (fun s => s.length > 10)
  match segments with
  | [] => []
  | h :: t => (maxByLen h t).take 80

/-- Python `s.find(pat)`: index of the first occurrence, `-1` if none. -/
def pyFindAux (pat : List Char) : List Char → Nat → Int
  | [], i => if pat.isPrefixOf [] then (i : Int) else -1
  | c :: t, i =>
    if pat.isPrefixOf (c :: t) then (i : Int) else pyFindAux pat t (i + 1)

def pyFind (s pat : List Char) : Int := pyFindAux pat s 0

/-- `pos = full.find(anchor) if len(anchor) > 10 else -1`. -/
def anchorPos (full snip : List Char) : Int :=
  if (anchorOf snip).length > 10 then pyFind full (anchorOf snip) else -1

/-- `start = max(0, pos - window * 3 // 4) if pos >= 0
else min(800, len(full) - window)`; `Int.toNat` is the `max(0, ·)`. -/
def excerptStart (full snip : List Char) (window : Nat) : Nat :=
  if anchorPos full snip ≥ 0 then
    (anchorPos full snip - ((window * 3 / 4 : Nat) : Int)).toNat
  else min 800 (full.length - window)

/-- `_best_excerpt`; the Python default is `window = 8000`. -/
def bestExcerpt (full fts_snippet : List Char) (window : Nat) : List Char :=
  if full.length ≤ window then full
  else (full.drop (excerptStart full fts_snippet window)).take window

/-! ## Acronym expansion: `_expand_acronyms` (llm.py lines 16–44) -/

/-- The `_ACRONYMS` table, in source (insertion) order. -/
def ACRONYMS : List (List Char × List Char) :=
  [(("ZEB").toList, ("zero-emission bus").toList),
   (("ZEBs").toList, ("zero-emission buses").toList),
   (("ZEV").toList, ("zero-emission vehicle").toList),
   (("ZEVs").toList, ("zero-emission vehicles").toList),
   (("PHEV").toList, ("plug-in hybrid electric vehicle").toList),
   (("PHEVs").toList, ("plug-in hybrid electric vehicles").toList),
   (("OBD").toList, ("on-board diagnostic").toList),
   (("NOx").toList, ("oxides of nitrogen").toList),
   (("PM").toList, ("particulate matter").toList),
   (("GHG").toList, ("greenhouse gas").toList),
   (("ICT").toList, ("innovative clean transit").toList),
   (("ACT").toList, ("advanced clean trucks").toList),
   (("HD").toList, ("heavy-duty").toList),
   (("LD").toList, ("light-duty").toList),
   (("MD").toList, ("medium-duty").toList),
   (("FTP").toList, ("federal test procedure").toList),
   (("BHP").toList, ("brake horsepower").toList),
   (("SOREL").toList, ("solid oxide regenerative electrolysis").toList)]

def boundaryBeforeOk (prev : Option Char) : Bool :=
  match prev with
  | none => true
  | some c => !isWordChar c

def boundaryAfterOk : List Char → Bool
  | [] => true
  | c :: _ => !isWordChar c

/-- One regex match attempt of `\bACR\b` (IGNORECASE) at the current
position, `prev` being the character just before it.  Every table key
consists of word characters, so `\b` on each side amounts to the
neighbouring character not being a word character. -/
def matchAt (acr : List Char) (prev : Option Char) (s : List Char) : Bool :=
  !acr.isEmpty && boundaryBeforeOk prev && ciPref acr s &&
    boundaryAfterOk (s.drop acr.length)

/-- `re.sub(pattern, rep, s, flags=re.IGNORECASE)` for one acronym:
leftmost non-overlapping matches, each replaced by `rep`, scanning
resuming after the matched text.  The first argument is the number of
already-matched characters still to be skipped (0 in the normal state);
`prev` is the character just before the current position. -/
def subAcrAux (acr rep : List Char) : Nat → Option Char → List Char → List Char
  | _, _, [] => []
  | k + 1, _, c :: s => subAcrAux acr rep k (some c) s
  | 0, prev, c :: s =>
    if matchAt acr prev (c :: s) then
      rep ++ subAcrAux acr rep (acr.length - 1) (some c) s
    else
      c :: subAcrAux acr rep 0 (some c) s

/-- One full substitution pass, starting at the beginning of `s` with
`prev` as the character preceding it (`none` at a string start). -/
def subAcr (acr rep : List Char) (prev : Option Char) (s : List Char) :
    List Char :=
  subAcrAux acr rep 0 prev s

/-- `_expand_acronyms`: fold the 18 substitutions in table order, each
replacement being the canonical acronym, a space, and its expansion. -/
def expand_acronyms (query : List Char) : List Char :=
  ACRONYMS.foldl (fun result p => subAcr p.1 (p.1 ++ ' ' :: p.2) none result)
    query

/-- No `\bacr\b` (case-insensitive) match starts inside `s` when `s` is
followed by `ctx` and preceded by `prev`. -/
def noMatchSeg (acr : List Char) : Option Char → List Char → List Char → Bool
  | _, [], _ => true
  | prev, c :: t, ctx =>
    !matchAt acr prev (c :: t ++ ctx) && noMatchSeg acr (some c) t ctx

/-- The character just before the end of `s`, or `prev` when `s` is
empty — the `prev` seen by a scanner that has just consumed `s`. -/
def lastOr (s : List Char) (prev : Option Char) : Option Char :=
  match s.getLast? with
  | some c => some c
  | none => prev

/-! ## Lexical search: `Database.fts_search` (database.py lines 225–269)

The SQLite FTS backend (`_fts_raw`) and the `LIKE` title search
(`find_pages_by_title`) are external collaborators here, modelled as
oracles: `raw` may return rows or fail (any exception), `titleSearch`
returns rows.  `fts_search` tokenizes the query, strips stop words and
tokens of length ≤ 2, runs the OR query, falls back to the AND query on
zero rows, and on a backend exception retries the AND query and finally
the title search on the raw query string.  The traced variant also
records the backend queries attempted, in order, and whether the title
fallback ran. -/

def STOP : List (List Char) :=
  [(("what").toList), (("does").toList), (("do").toList), (("did").toList),
   (("is").toList), (("are").toList), (("was").toList), (("were").toList),
   (("the").toList), (("a").toList), (("an").toList), (("and").toList),
   (("or").toList), (("in").toList), (("on").toList), (("at").toList),
   (("to").toList), (("of").toList), (("for").toList), (("with").toList),
   (("by").toList), (("from").toList), (("that").toList), (("this").toList),
   (("it").toList), (("be").toList), (("have").toList), (("has").toList),
   (("say").toList), (("says").toList), (("about").toList),
   (("tell").toList), (("me").toList), (("us").toList), (("how").toList),
   (("why").toList), (("when").toList), (("where").toList),
   (("which").toList), (("who").toList), (("can").toList),
   (("carb").toList)]

/-- `re.sub(r"[^\w\s]", " ", query)`. -/
def cleanedQuery (query : List Char) : List Char :=
  query.map (fun c => if isWordChar c || isSpaceChar c then c else ' ')

/-- Python `s.split()`: split on whitespace runs, no empty tokens. -/
def splitWsAux : List Char → List Char → List (List Char)
  | [], acc => if acc.isEmpty then [] else [acc.reverse]
  | c :: s, acc =>
    if isSpaceChar c then
      if acc.isEmpty then splitWsAux s [] else acc.reverse :: splitWsAux s []
    else splitWsAux s (c :: acc)

def splitWs (s : List Char) : List (List Char) := splitWsAux s []

/-- The filtered token list: lowercase, split, drop stop words and
tokens of length ≤ 2; when nothing survives, fall back to the raw
(uncased) token split of the cleaned query. -/
def ftsTokens (query : List Char) : List (List Char) :=
  if ((splitWs (lowerStr (cleanedQuery query))).filter
      (fun w => !STOP.contains w && w.length > 2)).isEmpty then
    splitWs (cleanedQuery query)
  else
    (splitWs (lowerStr (cleanedQuery query))).filter
      (fun w => !STOP.contains w && w.length > 2)

/-- Python `sep.join(xs)`. -/
def joinSep (sep : List Char) : List (List Char) → List Char
  | [] => []
  | [w] => w
  | w :: ws => w ++ sep ++ joinSep sep ws

def orQuery (query : List Char) : List Char :=
  joinSep ((" OR ").toList) (ftsTokens query)

def andQuery (query : List Char) : List Char :=
  joinSep ((" ").toList) (ftsTokens query)

structure FtsTrace (α : Type) where
  results : List α
  rawCalls : List (List Char)
  usedTitle : Bool
deriving DecidableEq

/-- `fts_search` with its control flow made observable.  The `try`
block runs the OR query and, on zero rows, the AND query; the `except`
handler (reached when either backend call failed) runs the AND query
and, if that fails too, the title search on the raw query string. -/
def fts_search_traced {α : Type} (raw : List Char → Except Unit (List α))
    (titleSearch : List Char → List α) (query : List Char) : FtsTrace α :=
  match raw (orQuery query) with
  | .ok results =>
    if results.isEmpty then
      match raw (andQuery query) with
      | .ok r2 => ⟨r2, [orQuery query, andQuery query], false⟩
      | .error _ =>
        match raw (andQuery query) with
        | .ok r3 =>
          ⟨r3, [orQuery query, andQuery query, andQuery query], false⟩
        | .error _ =>
          ⟨titleSearch query,
            [orQuery query, andQuery query, andQuery query], true⟩
    else ⟨results, [orQuery query], false⟩
  | .error _ =>
    match raw (andQuery query) with
    | .ok r3 => ⟨r3, [orQuery query, andQuery query], false⟩
    | .error _ =>
      ⟨titleSearch query, [orQuery query, andQuery query], true⟩

/-- `Database.fts_search`: the rows the caller receives. -/
def fts_search {α : Type} (raw : List Char → Except Unit (List α))
    (titleSearch : List Char → List α) (query : List Char) : List α :=
  (fts_search_traced raw titleSearch query).results

/-! ## Concrete inputs for the excerpt and acronym claims -/

/-- A 12-character anchor text. -/
def bsCx : List Char :=
  ['b', 'b', 'b', 'b', 'b', 'b', 'b', 'b', 'b', 'b', 'b', 'b']

/-- An FTS snippet whose only long inter-ellipsis segment is `bsCx`. -/
def snipCx : List Char := ("...bbbbbbbbbbbb...").toList

/-- 8001-character body: the anchor sits in the final 2000 characters,
so the back-biased window runs off the end of the body. -/
def fullCx : List Char := List.replicate 7989 'a' ++ bsCx

/-- 20000-character body with the anchor at position 15000. -/
def full7 : List Char :=
  List.replicate 15000 'a' ++ (bsCx ++ List.replicate 4988 'a')

end Carb

namespace Carb

/-! ## Helper lemmas -/

theorem find?_map_of_inv {α β : Type} (f : α → β) (p : α → Bool) (q : β → Bool)
    (hf : ∀ a, q (f a) = p a) :
    ∀ l : List α, (l.map f).find? q = (l.find? p).map f := by
  intro l
  induction l with
  | nil => rfl
  | cons a t ih =>
    simp only [List.map_cons, List.find?_cons, hf a]
    cases p a <;> simp [ih]

/-- A single `upsert_page` never changes a stored non-null
`parent_id`, whatever URL and candidate parent the call carries. -/
theorem upsert_keeps_parent (db : Db) (url : List Char) (r : PageRow)
    (p1 : Nat) (hr : lookupUrl db url = some r) (hp : r.parent_id = some p1)
    (c : UpsertCall) :
    ∃ r2, lookupUrl (upsert_page db c.url c.guid c.title c.content c.depth
        c.parent_id c.status).1 url = some r2 ∧ r2.parent_id = some p1 := by
  unfold upsert_page
  cases hc : lookupUrl db c.url with
  | none =>
    refine ⟨r, ?_, hp⟩
    simp only [lookupUrl] at hr ⊢
    rw [List.find?_append, hr]
    rfl
  | some r0 =>
    simp only
    set upd : PageRow → PageRow := fun p =>
      if p.url == c.url then
        { p with guid := c.guid, title := c.title, content := c.content,
                 depth := c.depth, parent_id := p.parent_id <|> c.parent_id,
                 status := c.status }
      else p with hupd
    have hurl : ∀ p : PageRow, (upd p).url = p.url := by
      intro p
      simp only [hupd]
      split <;> rfl
    refine ⟨upd r, ?_, ?_⟩
    · simp only [lookupUrl] at hr ⊢
      rw [find?_map_of_inv upd (fun p => p.url == url) (fun p => p.url == url)
        (fun a => by show ((upd a).url == url) = (a.url == url); rw [hurl a]),
        hr]
      rfl
    · simp only [hupd]
      by_cases h : r.url == c.url
      · rw [if_pos h]
        show (r.parent_id <|> c.parent_id) = some p1
        rw [hp]
        rfl
      · rw [if_neg h]
        exact hp

/-- C1: parent write-once.  Once a node's `parent_id` is stored
non-null, no sequence of later `upsert_page` calls — whatever candidate
parents they supply — changes it. -/
theorem parent_write_once (db : Db) (url : List Char) (r : PageRow) (p1 : Nat)
    (hr : lookupUrl db url = some r) (hp : r.parent_id = some p1)
    (calls : List UpsertCall) :
    ∃ r2, lookupUrl (applyUpserts db calls) url = some r2 ∧
      r2.parent_id = some p1 := by
  induction calls generalizing db r with
  | nil => exact ⟨r, hr, hp⟩
  | cons c cs ih =>
    obtain ⟨r1, hr1, hp1⟩ := upsert_keeps_parent db url r p1 hr hp c
    exact ih _ r1 hr1 hp1

/-- C1 witness: node `u` was first committed with parent 1; a later
upsert for the same URL offering candidate parent 2 leaves parent 1. -/
theorem parent_write_once_witness :
    ∃ r2, lookupUrl (applyUpserts c1Db
        [⟨('u' :: []), none, none, [], 5, some 2, ('o' :: 'k' :: [])⟩])
        ('u' :: []) = some r2 ∧ r2.parent_id = some 1 :=
  parent_write_once c1Db ('u' :: [])
    ⟨3, ('u' :: []), none, none, [], 1, some 1, ('o' :: 'k' :: [])⟩ 1
    (by decide) (by decide) _

/-- C2 counterexample: `upsert_page` overwrites a previously stored
depth.  A node first committed at depth 0 and re-upserted at depth 5
ends with stored depth 5, not 0. -/
theorem depth_overwritten_cx :
    ∃ r, lookupUrl
        (upsert_page
          (upsert_page emptyDb ('u' :: []) none none [] 0 none
            ('o' :: 'k' :: [])).1
          ('u' :: []) none none [] 5 none ('o' :: 'k' :: [])).1
        ('u' :: []) = some r ∧ r.depth = 5 ∧ ¬r.depth = 0 := by
  refine ⟨⟨1, ('u' :: []), none, none, [], 5, none, ('o' :: 'k' :: [])⟩,
    by decide, rfl, by decide⟩

/-- C2 amended: on a revisit of the same canonical URL, `upsert_page`
overwrites the stored depth (and guid, title, content, status) with the
newly supplied values; only `parent_id` is first-discoverer-wins. -/
theorem depth_overwrite_amended (db : Db) (url : List Char) (r : PageRow)
    (g : Option (List Char)) (t : Option (List Char)) (c : List Char)
    (d : Nat) (cand : Option Nat) (st : List Char)
    (hr : lookupUrl db url = some r) :
    ∃ r2, lookupUrl (upsert_page db url g t c d cand st).1 url = some r2 ∧
      r2.depth = d ∧ r2.guid = g ∧ r2.title = t ∧ r2.content = c ∧
      r2.status = st ∧ r2.parent_id = (r.parent_id <|> cand) := by
  unfold upsert_page
  rw [hr]
  simp only
  set upd : PageRow → PageRow := fun p =>
    if p.url == url then
      { p with guid := g, title := t, content := c,
               depth := d, parent_id := p.parent_id <|> cand,
               status := st }
    else p with hupd
  have hurl : ∀ p : PageRow, (upd p).url = p.url := by
    intro p
    simp only [hupd]
    split <;> rfl
  have hr2 : List.find? (fun p => p.url == url) db.pages = some r := hr
  have hmatch : (r.url == url) = true := by simpa using List.find?_some hr2
  refine ⟨upd r, ?_, ?_⟩
  · simp only [lookupUrl] at hr ⊢
    rw [find?_map_of_inv upd (fun p => p.url == url) (fun p => p.url == url)
      (fun a => by show ((upd a).url == url) = (a.url == url); rw [hurl a]),
      hr]
    rfl
  · simp only [hupd, if_pos hmatch]
    simp

/-- C2 amended witness: revisiting `u` (stored depth 0) with depth 5
stores depth 5. -/
theorem depth_overwrite_amended_witness :
    ∃ r2, lookupUrl (upsert_page
        (upsert_page emptyDb ('u' :: []) none none [] 0 none
          ('o' :: 'k' :: [])).1
        ('u' :: []) none none [] 5 none ('o' :: 'k' :: [])).1
        ('u' :: []) = some r2 ∧
      r2.depth = 5 ∧ r2.guid = none ∧ r2.title = none ∧ r2.content = [] ∧
      r2.status = ('o' :: 'k' :: []) ∧ r2.parent_id = (none <|> none) :=
  depth_overwrite_amended _ ('u' :: [])
    ⟨1, ('u' :: []), none, none, [], 0, none, ('o' :: 'k' :: [])⟩
    none none [] 5 none ('o' :: 'k' :: []) (by decide)

/-- C3: edge idempotence with first-text-wins.  Starting from a store
with no `(f, t)` edge, inserting `(f, t)` twice with different link
texts is a no-op the second time and leaves exactly one `(f, t)` row,
carrying the first text. -/
theorem insert_edge_idempotent (db : Db) (f t : Nat) (txt1 txt2 : List Char)
    (h : db.edges.all (fun e => !(e.from_id == f && e.to_id == t)) = true) :
    insert_edge (insert_edge db f t txt1) f t txt2 = insert_edge db f t txt1 ∧
    (insert_edge (insert_edge db f t txt1) f t txt2).edges.filter
      (fun e => e.from_id == f && e.to_id == t) = [⟨f, t, txt1⟩] := by
  have hnone : db.edges.any (fun e => e.from_id == f && e.to_id == t) = false := by
    rw [List.all_eq_true] at h
    rw [List.any_eq_false]
    intro e he
    have h2 := h e he
    simp only [Bool.not_eq_true'] at h2
    simp [h2]
  have h1 : insert_edge db f t txt1 =
      { db with edges := db.edges ++ [⟨f, t, txt1⟩] } := by
    unfold insert_edge
    rw [hnone]
    rfl
  have hany2 : ({ db with edges := db.edges ++ [⟨f, t, txt1⟩] } : Db).edges.any
      (fun e => e.from_id == f && e.to_id == t) = true := by
    simp only
    rw [List.any_append]
    simp
  have h2 : insert_edge (insert_edge db f t txt1) f t txt2 =
      insert_edge db f t txt1 := by
    rw [h1]
    unfold insert_edge
    rw [hany2]
    simp
  refine ⟨h2, ?_⟩
  rw [h2, h1]
  simp only
  rw [List.filter_append]
  have hf1 : db.edges.filter (fun e => e.from_id == f && e.to_id == t) = [] := by
    rw [List.filter_eq_nil_iff]
    intro e he
    rw [List.all_eq_true] at h
    have h2 := h e he
    simp only [Bool.not_eq_true'] at h2
    simp [h2]
  rw [hf1]
  simp

/-- C3 witness: two inserts of edge `(1, 2)` with texts `"A"` then
`"B"` on an edge-free store. -/
theorem insert_edge_idempotent_witness :
    insert_edge (insert_edge emptyDb 1 2 ('A' :: [])) 1 2 ('B' :: []) =
      insert_edge emptyDb 1 2 ('A' :: []) ∧
    (insert_edge (insert_edge emptyDb 1 2 ('A' :: [])) 1 2
        ('B' :: [])).edges.filter
      (fun e => e.from_id == 1 && e.to_id == 2) = [⟨1, 2, ('A' :: [])⟩] :=
  insert_edge_idempotent emptyDb 1 2 ('A' :: []) ('B' :: []) (by decide)

/-! ### Sortedness of the insertion sort modelling `ORDER BY` -/

theorem sortedBy_cons (le : α → α → Bool) (y : α) (l : List α) :
    sortedBy le (y :: l) = true ↔
      (∀ m, l.head? = some m → le y m = true) ∧ sortedBy le l = true := by
  cases l with
  | nil => simp [sortedBy]
  | cons m t =>
    simp only [sortedBy, Bool.and_eq_true, List.head?]
    constructor
    · rintro ⟨h1, h2⟩
      exact ⟨fun m' hm' => by injection hm' with e; exact e ▸ h1, h2⟩
    · rintro ⟨h1, h2⟩
      exact ⟨h1 m rfl, h2⟩

theorem insertBy_sorted (le : α → α → Bool)
    (htot : ∀ a b, le a b = true ∨ le b a = true) (x : α) :
    ∀ l, sortedBy le l = true → sortedBy le (insertBy le x l) = true := by
  intro l
  induction l with
  | nil => intro h; rfl
  | cons y ys ih =>
    intro h
    rw [insertBy]
    by_cases hxy : le x y = true
    · rw [if_pos hxy]
      simp [sortedBy, hxy, h]
    · rw [if_neg hxy]
      have hyx : le y x = true := (htot x y).resolve_left hxy
      have hys : sortedBy le ys = true := ((sortedBy_cons le y ys).mp h).2
      have hins := ih hys
      rw [sortedBy_cons]
      refine ⟨?_, hins⟩
      intro m hm
      cases ys with
      | nil =>
        have hm2 : x = m := by simpa [insertBy] using hm
        exact hm2 ▸ hyx
      | cons z zs =>
        rw [insertBy] at hm
        by_cases hxz : le x z = true
        · rw [if_pos hxz] at hm
          have hm2 : x = m := by simpa using hm
          exact hm2 ▸ hyx
        · rw [if_neg hxz] at hm
          have hm2 : z = m := by simpa using hm
          have hyz : le y z = true :=
            ((sortedBy_cons le y (z :: zs)).mp h).1 z rfl
          exact hm2 ▸ hyz

theorem sortBy_sorted (le : α → α → Bool)
    (htot : ∀ a b, le a b = true ∨ le b a = true) :
    ∀ l : List α, sortedBy le (sortBy le l) = true := by
  intro l
  induction l with
  | nil => rfl
  | cons a t ih => exact insertBy_sorted le htot a _ ih

/-! ### C4: `get_path_to_root` on cyclic and on well-formed chains -/

/-- On the 2-cycle store the CTE walk never completes, whatever fuel. -/
theorem cyc_walk : ∀ n, chainWalk cycDb n 1 = none ∧
    chainWalk cycDb n 2 = none := by
  intro n
  induction n with
  | zero => exact ⟨rfl, rfl⟩
  | succ n ih =>
    constructor
    · have e : chainWalk cycDb (n + 1) 1 =
          (chainWalk cycDb n 2).map
            (fun l =>
              (⟨1, ('p' :: '1' :: []), none, none, [], 1, some 2,
                ('o' :: 'k' :: [])⟩ : PageRow) :: l) := rfl
      rw [e, ih.2]
      rfl
    · have e : chainWalk cycDb (n + 1) 2 =
          (chainWalk cycDb n 1).map
            (fun l =>
              (⟨2, ('p' :: '2' :: []), none, none, [], 0, some 1,
                ('o' :: 'k' :: [])⟩ : PageRow) :: l) := rfl
      rw [e, ih.1]
      rfl

/-- C4 counterexample: the claim's bounded-iteration/`GraphIntegrityError`
behaviour does not exist.  On the cyclic store the recursive CTE behind
`get_path_to_root` never terminates: no number of evaluation steps
completes ancestor resolution for node 1, and no error is ever
produced. -/
theorem path_to_root_unbounded_cx : ¬ cteTerminates cycDb 1 := by
  rintro ⟨n, h⟩
  rw [(cyc_walk n).1] at h
  simp at h

theorem parentDepthOk_spec (db : Db) (r : PageRow) (p : Nat) (pr : PageRow)
    (h : parentDepthOk db r = true) (hp : r.parent_id = some p)
    (hpr : lookupId db p = some pr) : pr.depth < r.depth := by
  unfold parentDepthOk at h
  simp only [hp] at h
  simp only [hpr] at h
  simpa using h

theorem chainWalk_completes (db : Db) (hdec : depthDecreasing db = true) :
    ∀ fuel id, 1 ≤ fuel →
      (∀ r, lookupId db id = some r → r.depth + 2 ≤ fuel) →
      ∃ l, chainWalk db fuel id = some l := by
  intro fuel
  induction fuel with
  | zero => intro id h1 _; omega
  | succ n ih =>
    intro id _ hd
    cases hl : lookupId db id with
    | none => exact ⟨[], by simp [chainWalk, hl]⟩
    | some r =>
      cases hp : r.parent_id with
      | none => exact ⟨[r], by simp [chainWalk, hl, hp]⟩
      | some p =>
        have hdr : r.depth + 2 ≤ n + 1 := hd r hl
        have hmem : r ∈ db.pages := List.mem_of_find?_eq_some hl
        have hall : parentDepthOk db r = true :=
          List.all_eq_true.mp hdec r hmem
        have hstep : ∀ pr, lookupId db p = some pr → pr.depth + 2 ≤ n := by
          intro pr hpr
          have := parentDepthOk_spec db r p pr hall hp hpr
          omega
        obtain ⟨l, hlw⟩ := ih p (by omega) hstep
        exact ⟨r :: l, by simp [chainWalk, hl, hp, hlw]⟩

/-- C4 amended: `get_path_to_root` has no iteration bound and raises no
integrity error — on a cyclic parent chain it simply fails to terminate
(counterexample above); on a store whose stored parents have strictly
smaller depth than their children, ancestor resolution completes and
returns the ancestor rows ordered by depth ascending, i.e. root
first. -/
theorem path_to_root_amended (db : Db) (id : Nat)
    (hdec : depthDecreasing db = true) :
    ∃ fuel l, get_path_to_root db fuel id = some l ∧
      sortedBy depthLe l = true := by
  have htot : ∀ a b : PageRow, depthLe a b = true ∨ depthLe b a = true := by
    intro a b
    simp only [depthLe, decide_eq_true_eq]
    omega
  cases hl : lookupId db id with
  | none =>
    refine ⟨1, [], ?_, rfl⟩
    simp [get_path_to_root, chainWalk, hl, sortBy]
  | some r =>
    have hd : ∀ r2, lookupId db id = some r2 → r2.depth + 2 ≤ r.depth + 2 := by
      intro r2 h2
      rw [hl] at h2
      injection h2 with h2
      subst h2
      omega
    obtain ⟨l, hw⟩ := chainWalk_completes db hdec (r.depth + 2) id
      (by omega) hd
    refine ⟨r.depth + 2, sortBy depthLe l, ?_, ?_⟩
    · simp [get_path_to_root, hw]
    · exact sortBy_sorted depthLe htot l

/-- C4 amended witness: on the well-formed two-node store, resolution
from the child terminates with a depth-sorted path. -/
theorem path_to_root_amended_witness :
    depthDecreasing wfDb = true ∧
    (∃ fuel l, get_path_to_root wfDb fuel 2 = some l ∧
      sortedBy depthLe l = true) :=
  ⟨by decide, path_to_root_amended wfDb 2 (by decide)⟩

/-! ### C5: the 4-node fixture crawl -/

/-- C5 counterexample: the fixture crawl commits 3 link edges, not the
4 or 5 the claim states — the crawler records the parent edge only when
the child itself is dequeued, so the duplicate C → B link (B already
visited) is dropped and never becomes an edge. -/
theorem fixture_edge_count_cx :
    fixtureCrawl.db.edges.length = 3 ∧
    ¬(fixtureCrawl.db.edges.length = 4 ∨
      fixtureCrawl.db.edges.length = 5) := by
  decide

/-- C5 amended: crawling the 4-node fixture graph with `max_pages = 10`
yields exactly 4 document nodes and exactly 3 link edges — the three
parent-discovery edges root→A, A→B, A→C, each recorded when the child
is dequeued, the duplicate C→B link being dropped at discovery time —
and `get_children(root)` returns exactly the node A. -/
theorem fixture_crawl_amended :
    fixtureCrawl.db.pages.length = 4 ∧
    fixtureCrawl.db.edges =
      [⟨1, 2, ('A' :: [])⟩, ⟨2, 3, ('B' :: [])⟩, ⟨2, 4, ('C' :: [])⟩] ∧
    get_children fixtureCrawl.db 1 =
      [⟨2, ("a").toList, none, some (("A").toList),
        ("a page content").toList, 1, some 1, ('o' :: 'k' :: [])⟩] := by
  decide

/-! ### C6/C7: excerpt windowing -/

/-- `find` on a run of `c` followed by a match of `pat`: the first
occurrence is right after the run. -/
theorem pyFindAux_replicate (c : Char) (pat rest : List Char)
    (hne : pat ≠ []) (hpref : pat.isPrefixOf rest = true)
    (hc : ∀ p t, pat = p :: t → (p == c) = false) :
    ∀ n i, pyFindAux pat (List.replicate n c ++ rest) i =
      ((i + n : Nat) : Int) := by
  intro n
  induction n with
  | zero =>
    intro i
    rw [List.replicate_zero, List.nil_append]
    cases rest with
    | nil => rw [pyFindAux, if_pos hpref]; simp
    | cons d u => rw [pyFindAux, if_pos hpref]; simp
  | succ n ih =>
    intro i
    rw [List.replicate_succ, List.cons_append, pyFindAux]
    have hnp : pat.isPrefixOf (c :: (List.replicate n c ++ rest)) = false := by
      cases pat with
      | nil => exact absurd rfl hne
      | cons p t =>
        have hpc := hc p t rfl
        simp [List.isPrefixOf, hpc]
    rw [if_neg (by simp [hnp]), ih (i + 1)]
    push_cast
    omega

/-- C6 counterexample: an 8001-character body whose snippet anchor
occurs at position 7989 yields an excerpt of 6012 characters, not the
window size 8000 — the back-biased window runs past the end of the
body and the slice is truncated. -/
theorem excerpt_window_cx :
    8000 < fullCx.length ∧ (bestExcerpt fullCx snipCx 8000).length ≠ 8000 := by
  have hlen : fullCx.length = 8001 := by
    unfold fullCx
    rw [List.length_append, List.length_replicate]
    decide
  have hc : ∀ p t, bsCx = p :: t → (p == 'a') = false := by
    intro p t h
    simp only [bsCx] at h
    injection h with h1 _
    rw [← h1]
    decide
  have hfind : pyFind fullCx bsCx = 7989 := by
    have := pyFindAux_replicate 'a' bsCx bsCx (by decide) (by decide) hc 7989 0
    simp only [pyFind, fullCx]
    rw [this]
    decide
  have ha : anchorOf snipCx = bsCx := by decide
  have hap : anchorPos fullCx snipCx = 7989 := by
    unfold anchorPos
    rw [ha, if_pos (by decide), hfind]
  have hes : excerptStart fullCx snipCx 8000 = 1989 := by
    unfold excerptStart
    rw [hap, if_pos (by decide)]
    decide
  have hbe : (bestExcerpt fullCx snipCx 8000).length = 6012 := by
    unfold bestExcerpt
    rw [if_neg (by omega), List.length_take, List.length_drop, hes, hlen]
    decide
  refine ⟨by omega, by omega⟩

/-- C6 amended: a body at most the window is returned unchanged; a
longer body yields an excerpt of length `min window (len − start)`,
which is exactly the window whenever the anchor is not found (the
boilerplate-skip branch), but falls short of the window when the found
anchor sits close enough to the end of the body that the back-biased
window overruns it. -/
theorem best_excerpt_amended (full snip : List Char) (w : Nat) :
    (full.length ≤ w → bestExcerpt full snip w = full) ∧
    (w < full.length →
      (bestExcerpt full snip w).length =
        min w (full.length - excerptStart full snip w)) ∧
    (w < full.length → anchorPos full snip < 0 →
      (bestExcerpt full snip w).length = w) := by
  refine ⟨?_, ?_, ?_⟩
  · intro h
    unfold bestExcerpt
    rw [if_pos h]
  · intro h
    unfold bestExcerpt
    rw [if_neg (by omega), List.length_take, List.length_drop]
  · intro h hneg
    have hes : excerptStart full snip w = min 800 (full.length - w) := by
      unfold excerptStart
      rw [if_neg (by omega)]
    unfold bestExcerpt
    rw [if_neg (by omega), List.length_take, List.length_drop, hes]
    omega

/-- C6 amended witness: a short body is returned whole; a 28-character
body with window 8 and the anchor found yields `min 8 (28 − start)`
characters; with no anchor it yields exactly the window. -/
theorem best_excerpt_amended_witness :
    bestExcerpt (("short body").toList) snipCx 8000 = ("short body").toList ∧
    (bestExcerpt (("aaaaaaaaaaaaaaaabbbbbbbbbbbb").toList) snipCx 8).length =
      min 8 ((("aaaaaaaaaaaaaaaabbbbbbbbbbbb").toList).length -
        excerptStart (("aaaaaaaaaaaaaaaabbbbbbbbbbbb").toList) snipCx 8) ∧
    (bestExcerpt (("aaaaaaaaaaaaaaaabbbbbbbbbbbb").toList) [] 8).length = 8 :=
  ⟨(best_excerpt_amended (("short body").toList) snipCx 8000).1 (by decide),
   (best_excerpt_amended (("aaaaaaaaaaaaaaaabbbbbbbbbbbb").toList) snipCx
      8).2.1 (by decide),
   (best_excerpt_amended (("aaaaaaaaaaaaaaaabbbbbbbbbbbb").toList) []
      8).2.2 (by decide) (by decide)⟩

/-- C7: when the body exceeds the window and the snippet anchor is
found at position `p`, the excerpt is the window-sized slice starting
at `p − window·3/4` (truncated subtraction, i.e. `max 0 (p − 3w/4)`),
so the anchor lands at the start of the final quarter of the window. -/
theorem best_excerpt_anchor (full snip : List Char) (w : Nat) (p : Nat)
    (hlen : w < full.length)
    (hanch : 10 < (anchorOf snip).length)
    (hpos : pyFind full (anchorOf snip) = (p : Int)) :
    bestExcerpt full snip w = (full.drop (p - w * 3 / 4)).take w := by
  have hap : anchorPos full snip = (p : Int) := by
    unfold anchorPos
    rw [if_pos hanch, hpos]
  have hes : excerptStart full snip w = p - w * 3 / 4 := by
    unfold excerptStart
    rw [hap, if_pos (Int.natCast_nonneg p)]
    omega
  unfold bestExcerpt
  rw [if_neg (by omega), hes]

/-- C7 witness: the spec's example — 20000-character body, anchor at
15000, window 8000 — yields the slice `[9000, 17000)`: it starts at
character 9000 and is exactly 8000 characters long. -/
theorem best_excerpt_anchor_witness :
    full7.length = 20000 ∧
    bestExcerpt full7 snipCx 8000 = (full7.drop 9000).take 8000 ∧
    ((full7.drop 9000).take 8000).length = 8000 := by
  have hflen : full7.length = 20000 := by
    unfold full7
    rw [List.length_append, List.length_append, List.length_replicate,
      List.length_replicate]
    decide
  have hc : ∀ p t, bsCx = p :: t → (p == 'a') = false := by
    intro p t h
    simp only [bsCx] at h
    injection h with h1 _
    rw [← h1]
    decide
  have hfind : pyFind full7 bsCx = 15000 := by
    have := pyFindAux_replicate 'a' bsCx (bsCx ++ List.replicate 4988 'a')
      (by decide) (by decide) hc 15000 0
    simp only [pyFind, full7]
    rw [this]
    decide
  have ha : anchorOf snipCx = bsCx := by decide
  refine ⟨hflen, ?_, ?_⟩
  · have := best_excerpt_anchor full7 snipCx 8000 15000 (by omega)
      (by rw [ha]; decide) (by rw [ha]; exact hfind)
    simpa using this
  · rw [List.length_take, List.length_drop, hflen]
    decide

/-! ### C8: the search fallback chain -/

/-- C8: for every backend and query, `fts_search` (i) issues the
disjunctive OR query first, (ii) issues the conjunctive AND query when
the OR query returns zero rows, (iii) issues the AND query after a
backend error and, if that errors too, returns the title-substring
search of the raw query string instead of failing, (iv) always issues
at least one backend query, and (v) builds its OR/AND queries from the
tokens that survive the stop-word and length-≤2 filter whenever that
filter leaves any. -/
theorem fts_fallback_chain {α : Type} (raw : List Char → Except Unit (List α))
    (titleSearch : List Char → List α) (query : List Char) :
    (fts_search_traced raw titleSearch query).rawCalls.head? =
        some (orQuery query) ∧
    (raw (orQuery query) = .ok [] →
      andQuery query ∈ (fts_search_traced raw titleSearch query).rawCalls) ∧
    (∀ e, raw (orQuery query) = .error e →
      andQuery query ∈ (fts_search_traced raw titleSearch query).rawCalls) ∧
    (∀ e e2, raw (orQuery query) = .error e →
      raw (andQuery query) = .error e2 →
      (fts_search_traced raw titleSearch query).usedTitle = true ∧
      fts_search raw titleSearch query = titleSearch query) ∧
    (fts_search_traced raw titleSearch query).rawCalls ≠ [] ∧
    ((splitWs (lowerStr (cleanedQuery query))).filter
        (fun w => !STOP.contains w && w.length > 2) ≠ [] →
      orQuery query = joinSep ((" OR ").toList)
        ((splitWs (lowerStr (cleanedQuery query))).filter
          (fun w => !STOP.contains w && w.length > 2)) ∧
      andQuery query = joinSep ((" ").toList)
        ((splitWs (lowerStr (cleanedQuery query))).filter
          (fun w => !STOP.contains w && w.length > 2))) := by
  refine ⟨?_, ?_, ?_, ?_, ?_, ?_⟩
  · cases ho : raw (orQuery query) with
    | ok results =>
      cases hre : results.isEmpty
      · simp [fts_search_traced, ho, hre]
      · cases ha : raw (andQuery query) <;>
          simp [fts_search_traced, ho, hre, ha]
    | error e =>
      cases ha : raw (andQuery query) <;> simp [fts_search_traced, ho, ha]
  · intro h0
    cases ha : raw (andQuery query) <;> simp [fts_search_traced, h0, ha]
  · intro e h0
    cases ha : raw (andQuery query) <;> simp [fts_search_traced, h0, ha]
  · intro e e2 h0 h2
    simp [fts_search_traced, fts_search, h0, h2]
  · cases ho : raw (orQuery query) with
    | ok results =>
      cases hre : results.isEmpty
      · simp [fts_search_traced, ho, hre]
      · cases ha : raw (andQuery query) <;>
          simp [fts_search_traced, ho, hre, ha]
    | error e =>
      cases ha : raw (andQuery query) <;> simp [fts_search_traced, ho, ha]
  · intro h
    have hw : ((splitWs (lowerStr (cleanedQuery query))).filter
        (fun w => !STOP.contains w && w.length > 2)).isEmpty = false := by
      cases hl : (splitWs (lowerStr (cleanedQuery query))).filter
          (fun w => !STOP.contains w && w.length > 2) with
      | nil => exact absurd hl h
      | cons a t => rfl
    constructor
    · unfold orQuery ftsTokens
      rw [hw, if_neg Bool.false_ne_true]
    · unfold andQuery ftsTokens
      rw [hw, if_neg Bool.false_ne_true]

/-- C8 witness: with a backend that always errors both FTS paths fail
and the caller still receives the title-search rows; with a backend
returning zero rows the AND query is attempted; and the OR query over
`"nitrogen"` is built from the filtered tokens. -/
theorem fts_fallback_chain_witness :
    ((fts_search_traced (fun _ => (Except.error () : Except Unit (List Nat)))
        (fun _ => [1]) (("nitrogen").toList)).usedTitle = true ∧
      fts_search (fun _ => (Except.error () : Except Unit (List Nat)))
        (fun _ => [1]) (("nitrogen").toList) = [1]) ∧
    andQuery (("nitrogen").toList) ∈
      (fts_search_traced (fun _ => (Except.ok [] : Except Unit (List Nat)))
        (fun _ => [1]) (("nitrogen").toList)).rawCalls ∧
    orQuery (("nitrogen").toList) = joinSep ((" OR ").toList)
      ((splitWs (lowerStr (cleanedQuery (("nitrogen").toList)))).filter
        (fun w => !STOP.contains w && w.length > 2)) :=
  ⟨(fts_fallback_chain (fun _ => Except.error ()) (fun _ => [1])
      (("nitrogen").toList)).2.2.2.1 () () rfl rfl,
   (fts_fallback_chain (fun _ => Except.ok []) (fun _ => [1])
      (("nitrogen").toList)).2.1 rfl,
   ((fts_fallback_chain (fun _ => (Except.error () : Except Unit (List Nat)))
      (fun _ => [1]) (("nitrogen").toList)).2.2.2.2.2 (by decide)).1⟩

/-! ### C9: acronym expansion -/

/-- A substitution pass over a string with no case-insensitive
whole-word match leaves the string unchanged. -/
theorem subAcr_no_match (acr rep : List Char) :
    ∀ s prev, noMatchSeg acr prev s [] = true → subAcr acr rep prev s = s := by
  intro s
  induction s with
  | nil => intro prev h; rfl
  | cons c t ih =>
    intro prev h
    simp only [noMatchSeg, List.append_nil, Bool.and_eq_true,
      Bool.not_eq_true'] at h
    obtain ⟨h1, h2⟩ := h
    unfold subAcr at ih ⊢
    rw [subAcrAux, if_neg (by simp [h1])]
    exact congrArg (c :: ·) (ih (some c) h2)

theorem lastOr_cons (c : Char) (t : List Char) (prev : Option Char) :
    lastOr (c :: t) prev = lastOr t (some c) := by
  cases t with
  | nil => rfl
  | cons d ds =>
    unfold lastOr
    rw [List.getLast?_cons_cons]
    cases h : (d :: ds).getLast? with
    | some x => rfl
    | none => simp at h

theorem lastOr_some (a : Char) (l : List Char) :
    lastOr l (some a) = (a :: l).getLast? := by
  cases l with
  | nil => rfl
  | cons d ds =>
    unfold lastOr
    rw [List.getLast?_cons_cons]
    cases h : (d :: ds).getLast? with
    | some x => rfl
    | none => simp at h

/-- The skip state consumes exactly the skipped characters, updating
`prev` to the last of them. -/
theorem subAcrAux_skip (acr rep : List Char) :
    ∀ (l : List Char) (prev : Option Char) (s : List Char),
      subAcrAux acr rep l.length prev (l ++ s) =
        subAcrAux acr rep 0 (lastOr l prev) s := by
  intro l
  induction l with
  | nil => intro prev s; rfl
  | cons c t ih =>
    intro prev s
    rw [List.length_cons, List.cons_append, subAcrAux, ih (some c) s,
      lastOr_cons]

/-- One substitution pass on `s1 ++ acr ++ s2`: when no match starts
inside `s1` and the canonical occurrence of `acr` after it matches,
the output keeps `s1` intact, replaces the occurrence by `rep`, and
continues scanning `s2`. -/
theorem subAcr_preserves_canonical (acr rep : List Char) :
    ∀ s1 prev s2,
      noMatchSeg acr prev s1 (acr ++ s2) = true →
      matchAt acr (lastOr s1 prev) (acr ++ s2) = true →
      subAcr acr rep prev (s1 ++ (acr ++ s2)) =
        s1 ++ (rep ++ subAcr acr rep acr.getLast? s2) := by
  intro s1
  induction s1 with
  | nil =>
    intro prev s2 hnm hm
    simp only [List.nil_append]
    have hm' : matchAt acr prev (acr ++ s2) = true := hm
    cases hacr : acr with
    | nil =>
      rw [hacr] at hm'
      simp [matchAt] at hm'
    | cons a at2 =>
      subst hacr
      unfold subAcr
      rw [List.cons_append, subAcrAux,
        if_pos (show matchAt (a :: at2) prev (a :: (at2 ++ s2)) = true by
          rw [← List.cons_append]; exact hm')]
      rw [show (a :: at2).length - 1 = at2.length from rfl,
        subAcrAux_skip (a :: at2) rep at2 (some a) s2, lastOr_some]
  | cons c t ih =>
    intro prev s2 hnm hm
    simp only [noMatchSeg, Bool.and_eq_true, Bool.not_eq_true'] at hnm
    obtain ⟨h1, h2⟩ := hnm
    simp only [List.cons_append] at h1 ⊢
    unfold subAcr at ih ⊢
    rw [subAcrAux, if_neg (by simp [h1])]
    have hm2 : matchAt acr (lastOr t (some c)) (acr ++ s2) = true := by
      rw [← lastOr_cons c t prev]
      exact hm
    exact congrArg (c :: ·) (ih (some c) s2 h2 hm2)

/-- Folding no-match substitution passes is the identity. -/
theorem expand_no_match_all :
    ∀ (l : List (List Char × List Char)) (q : List Char),
      (∀ p ∈ l, noMatchSeg p.1 none q [] = true) →
      l.foldl (fun r p => subAcr p.1 (p.1 ++ ' ' :: p.2) none r) q = q := by
  intro l
  induction l with
  | nil => intro q _; rfl
  | cons p ps ih =>
    intro q hq
    simp only [List.foldl_cons]
    rw [subAcr_no_match p.1 (p.1 ++ ' ' :: p.2) q none (hq p (by simp))]
    exact ih q (fun p2 hp2 => hq p2 (by simp [hp2]))

/-- C9 counterexample: expansion is not purely additive — a lowercase
occurrence of a table acronym is rewritten to the table's casing, so
the original token disappears from the output.  `"zeb"` becomes
`"ZEB zero-emission bus"`, which no longer contains `"zeb"` at all,
even though the input was nothing but that token. -/
theorem expand_acronyms_case_cx :
    expand_acronyms (("zeb").toList) = ("ZEB zero-emission bus").toList ∧
    pyFind (expand_acronyms (("zeb").toList)) (("zeb").toList) = -1 ∧
    pyFind (("zeb").toList) (("zeb").toList) = 0 := by
  decide

/-- C9 amended: each `_expand_acronyms` pass matches acronyms
case-insensitively as whole words and rewrites every match to the
table's canonical casing with the expansion appended immediately after
it — so a canonically-cased occurrence is preserved in place with its
expansion appended, a differently-cased occurrence loses only its
casing, the surrounding text is kept, and a query with no
case-insensitive whole-word match of any table acronym is returned
unchanged. -/
theorem expand_acronyms_amended :
    (∀ acr exp prev s1 s2,
      noMatchSeg acr prev s1 (acr ++ s2) = true →
      matchAt acr (lastOr s1 prev) (acr ++ s2) = true →
      subAcr acr (acr ++ ' ' :: exp) prev (s1 ++ (acr ++ s2)) =
        s1 ++ ((acr ++ ' ' :: exp) ++
          subAcr acr (acr ++ ' ' :: exp) acr.getLast? s2)) ∧
    (∀ q, (∀ p ∈ ACRONYMS, noMatchSeg p.1 none q [] = true) →
      expand_acronyms q = q) := by
  constructor
  · intro acr exp prev s1 s2 h1 h2
    exact subAcr_preserves_canonical acr (acr ++ ' ' :: exp) s1 prev s2 h1 h2
  · intro q hq
    unfold expand_acronyms
    exact expand_no_match_all ACRONYMS q hq

/-- C9 amended witness: one `ZEB` pass on `"use of ZEB fleets"` keeps
the prefix and the canonical token and appends the expansion right
after it; a query with no acronym is returned unchanged. -/
theorem expand_acronyms_amended_witness :
    (subAcr (("ZEB").toList)
        ((("ZEB").toList) ++ ' ' :: (("zero-emission bus").toList)) none
        ((("use of ").toList) ++ ((("ZEB").toList) ++ ((" fleets").toList))) =
      (("use of ").toList) ++
        (((("ZEB").toList) ++ ' ' :: (("zero-emission bus").toList)) ++
          subAcr (("ZEB").toList)
            ((("ZEB").toList) ++ ' ' :: (("zero-emission bus").toList))
            ((("ZEB").toList).getLast?) ((" fleets").toList))) ∧
    expand_acronyms (("hello there").toList) = ("hello there").toList :=
  ⟨expand_acronyms_amended.1 (("ZEB").toList) (("zero-emission bus").toList)
     none (("use of ").toList) ((" fleets").toList) (by decide) (by decide),
   expand_acronyms_amended.2 (("hello there").toList) (by decide)⟩

/-- C10: the crawler's dedup-key extractor and the extractor's link
filter agree on every URL. -/
theorem guid_extractors_agree : ∀ url : List Char,
    guid_from_url url = extract_guid url :=
  fun _ => rfl

end Carb
